import Mathlib

/-!
Verification of the drill-motion analysis and loop-selection engine of the
Train repository.  The analyzer (`RealVideoAnalyzer`, canvas/frame-hash based)
and the loop renderer (`VideoLoopCreator`) are shallowly embedded below.
JavaScript numbers are modelled as exact rationals (`ℚ`); pixel buffers as
lists of rationals; frame hashes (strings of '0'/'1' characters) as lists of
booleans.  Definitions follow the source line by line; helper names match the
source methods.
-/

namespace Train

/-- Image data returned by `ctx.getImageData`: a width, a height, and the
RGBA byte array (4 entries per pixel). -/
structure ImageData where
  width : ℕ
  height : ℕ
  data : List ℚ
deriving DecidableEq

/-- The per-frame record pushed by `extractFrames`: capture time in seconds,
perceptual hash, motion score relative to the previous frame, and the raw
pixel data. -/
structure FrameData where
  time : ℚ
  hash : List Bool
  motion : ℚ
  pixels : List ℚ
deriving DecidableEq, Inhabited

/-- The analysis result (`DrillAnalysis` in the source).  The `poses` field of
the source is omitted: it is always the empty array. -/
structure DrillAnalysis where
  duration : ℚ
  repetitions : ℕ
  keyFrames : List ℕ
  loopStart : ℚ
  loopEnd : ℚ
  confidence : ℚ
deriving DecidableEq

/-- Method `calculateFrameHash`: partition the image into 8×8 blocks, average the
grayscale value `(R+G+B)/3` over each block, and emit one bit per block
(`true` for the character '1', i.e. average above 128). -/
def calculateFrameHash (img : ImageData) : List Bool :=
  let blockSize : ℕ := 8
  (List.range (img.height / blockSize)).foldl (fun hash bY =>
    (List.range (img.width / blockSize)).foldl (fun hash bx =>
      let cell := (List.range' (bY * blockSize)
          (min ((bY + 1) * blockSize) img.height - bY * blockSize)).foldl (fun acc y =>
        (List.range' (bx * blockSize)
            (min ((bx + 1) * blockSize) img.width - bx * blockSize)).foldl (fun acc x =>
          let idx := (y * img.width + x) * 4
          (acc.1 + (img.data.getD idx 0 + img.data.getD (idx + 1) 0 +
            img.data.getD (idx + 2) 0) / 3, acc.2 + 1)) acc) ((0 : ℚ), (0 : ℕ))
      hash ++ [decide ((128 : ℚ) < cell.1 / (cell.2 : ℚ))]) hash) []

/-- Method `calculateMotion`: sample every 16th pixel (stride 64 over the RGBA
array), sum absolute per-channel differences, and normalize by
`samples * 765`. -/
def calculateMotion (pixels1 pixels2 : List ℚ) : ℚ :=
  let sampleRate : ℕ := 16
  let stride := sampleRate * 4
  let acc := ((List.range ((pixels1.length + stride - 1) / stride)).map (· * stride)).foldl
    (fun acc i =>
      (acc.1 + (|pixels1.getD i 0 - pixels2.getD i 0| +
        |pixels1.getD (i + 1) 0 - pixels2.getD (i + 1) 0| +
        |pixels1.getD (i + 2) 0 - pixels2.getD (i + 2) 0|), acc.2 + 1))
    ((0 : ℚ), (0 : ℕ))
  if 0 < acc.2 then acc.1 / (acc.2 : ℚ) / 765 else 0

/-- Number of frames extracted by `extractFrames`:
`Math.min(Math.ceil(duration * 10), 300)` (frame rate 10, cap 300). -/
def totalFramesOf (d : ℚ) : ℕ := (min ⌈d * 10⌉ 300).toNat

/-- Sampling interval of `extractFrames`: `duration / totalFrames`. -/
def intervalOf (d : ℚ) : ℚ := d / (totalFramesOf d : ℚ)

/-- The frame pushed at loop index `i` of `extractFrames`, with the canvas
capture modelled as a function from seek time to RGBA data; the previous
frame's pixels are the capture at the previous sample time. -/
def mkFrame (w h : ℕ) (capture : ℚ → List ℚ) (d : ℚ) (i : ℕ) : FrameData :=
  { time := (i : ℚ) * intervalOf d
    hash := calculateFrameHash ⟨w, h, capture ((i : ℚ) * intervalOf d)⟩
    motion := if 0 < i then
        calculateMotion (capture (((i - 1 : ℕ) : ℚ) * intervalOf d))
          (capture ((i : ℚ) * intervalOf d))
      else 0
    pixels := capture ((i : ℚ) * intervalOf d) }

/-- Method `extractFrames`: seek to `i * interval` for `i < totalFrames`, draw the
frame on the (fixed-size) canvas, and push time, hash, motion and pixels.
`capture` models the seek-then-read of the canvas at a given time; `w`, `h`
are the canvas dimensions, fixed for the whole extraction. -/
def extractFrames (w h : ℕ) (capture : ℚ → List ℚ) (d : ℚ) : List FrameData :=
  (List.range (totalFramesOf d)).foldl (fun frames (i : ℕ) =>
    let time := (i : ℚ) * intervalOf d
    let data := capture time
    let hash := calculateFrameHash ⟨w, h, data⟩
    let motion := if 0 < i then calculateMotion (frames.getD (i - 1) default).pixels data
      else 0
    frames ++ [{ time := time, hash := hash, motion := motion, pixels := data }]) []

/-- Method `comparePatterns`: fraction of aligned frame pairs whose hash similarity
`1 - hammingDistance/length` exceeds 0.7; returns 0 if the patterns have
different lengths. -/
def comparePatterns (pattern1 pattern2 : List (List Bool)) : ℚ :=
  if pattern1.length ≠ pattern2.length then 0
  else
    let matchCount := (List.range pattern1.length).countP (fun i =>
      let hash1 := pattern1.getD i []
      let hash2 := pattern2.getD i []
      let distance := (List.range hash1.length).countP
        (fun j => decide (hash1.get? j ≠ hash2.get? j))
      decide ((0.7 : ℚ) < 1 - (distance : ℚ) / (hash1.length : ℚ)))
    (matchCount : ℚ) / (pattern1.length : ℚ)

/-- Cycle-start detection of `findRepetitions`: indices `1 ≤ i ≤ n-2` where
the motion rises from below the threshold 0.05 to above it and keeps
increasing. -/
def cycleStartsOf (frames : List FrameData) : List ℕ :=
  let motionThreshold : ℚ := 0.05
  (List.range' 1 (frames.length - 2)).filter (fun i =>
    decide ((frames.getD (i - 1) default).motion < motionThreshold ∧
      motionThreshold < (frames.getD i default).motion ∧
      (frames.getD i default).motion < (frames.getD (i + 1) default).motion))

/-- Candidates recorded for one window size in `findRepetitions`: every pair
of cycle starts whose aligned hash windows have similarity above 0.75. -/
def repsForWindow (frames : List FrameData) (w : ℕ) : List (ℕ × ℕ) :=
  let cs := cycleStartsOf frames
  (List.range (cs.length - 1)).foldl (fun acc i =>
    acc ++ (List.range' (i + 1) (cs.length - (i + 1))).foldl (fun acc2 j =>
      acc2 ++
        (let start1 := cs.getD i 0
         let end1 := min (start1 + w) frames.length
         let pattern1 := ((frames.drop start1).take (end1 - start1)).map FrameData.hash
         let start2 := cs.getD j 0
         let end2 := min (start2 + w) frames.length
         let pattern2 := ((frames.drop start2).take (end2 - start2)).map FrameData.hash
         if (0.75 : ℚ) < comparePatterns pattern1 pattern2 then [(start1, start2)]
         else [])) []) []

/-- Method `deduplicateRepetitions`: keep a candidate only if no already-kept
candidate has both indices within (strictly less than) 5 frames of it. -/
def deduplicateRepetitions (reps : List (ℕ × ℕ)) : List (ℕ × ℕ) :=
  reps.foldl (fun unique rep =>
    if unique.any (fun u =>
        decide (|(u.1 : ℤ) - (rep.1 : ℤ)| < 5 ∧ |(u.2 : ℤ) - (rep.2 : ℤ)| < 5)) then
      unique
    else unique ++ [rep]) []

/-- Method `findRepetitions`: try window sizes n/15, n/10, n/5 (each at least 5),
collect similar cycle-start pairs for each, and deduplicate. -/
def findRepetitions (frames : List FrameData) : List (ℕ × ℕ) :=
  let windowSizes := [frames.length / 15, frames.length / 10, frames.length / 5].filter
    (fun w => decide (5 ≤ w))
  let allRepetitions := windowSizes.foldl (fun acc w => acc ++ repsForWindow frames w) []
  deduplicateRepetitions allRepetitions

/-- The 75th-percentile motion threshold of `findKeyFrames`:
`sortedMotion[Math.floor(sortedMotion.length * 0.75)]`. -/
def keyFrameThreshold (frames : List FrameData) : ℚ :=
  let sortedMotion := List.insertionSort (· ≤ ·) (frames.map FrameData.motion)
  sortedMotion.getD (Int.toNat ⌊(sortedMotion.length : ℚ) * 0.75⌋) 0

/-- Method `findKeyFrames`: indices `1 ≤ i ≤ n-2` whose motion is a strict local
maximum and exceeds the 75th-percentile threshold. -/
def findKeyFrames (frames : List FrameData) : List ℕ :=
  let motionValues := frames.map FrameData.motion
  let threshold := keyFrameThreshold frames
  (List.range' 1 (frames.length - 2)).filter (fun i =>
    decide (threshold < motionValues.getD i 0 ∧
      motionValues.getD (i - 1) 0 < motionValues.getD i 0 ∧
      motionValues.getD (i + 1) 0 < motionValues.getD i 0))

/-- Method `findBestLoop` (current variant, lines 662-703 of the analyzer): with no
candidates fall back to the middle 60% of the frame range; otherwise pick the
candidate maximizing consistency-count times average window motion.  No clamp
is applied to the winning candidate. -/
def findBestLoop (frames : List FrameData) (reps : List (ℕ × ℕ)) : ℕ × ℕ :=
  match reps with
  | [] =>
    (Int.toNat ⌊(frames.length : ℚ) * 0.2⌋, Int.toNat ⌊(frames.length : ℚ) * 0.8⌋)
  | r0 :: _ =>
    (reps.foldl (fun best p =>
      let dur : ℤ := (p.2 : ℤ) - (p.1 : ℤ)
      let consistencyScore := reps.countP (fun q =>
        decide (|((q.2 : ℤ) - (q.1 : ℤ)) - dur| < 5))
      let avgMotion := (((frames.drop p.1).take (p.2 - p.1)).foldl
        (fun s f => s + f.motion) 0) / (dur : ℚ)
      let score := (consistencyScore : ℚ) * avgMotion
      if best.2 < score then (p, score) else best) (r0, (0 : ℚ))).1

/-- Method `findBestLoop` (older analyzer variant, lines 298-312): uses the first
repetition and clamps the loop end to `start + Math.floor(n / 3)`. -/
def findBestLoopOld (frames : List FrameData) (reps : List (ℕ × ℕ)) : ℕ × ℕ :=
  match reps with
  | [] =>
    (Int.toNat ⌊(frames.length : ℚ) * 0.2⌋, Int.toNat ⌊(frames.length : ℚ) * 0.8⌋)
  | (s, e) :: _ => (s, min e (s + frames.length / 3))

/-- Method `calculateConfidence`: 0.3 / 0.6 / 0.9 / 0.75 for 0 / 1 / ≥3 / 2
candidates. -/
def calculateConfidence (reps : List (ℕ × ℕ)) : ℚ :=
  if reps.length = 0 then 0.3
  else if reps.length = 1 then 0.6
  else if 3 ≤ reps.length then 0.9
  else 0.75

/-- The zero-value result returned when no frames were extracted. -/
def zeroAnalysis : DrillAnalysis :=
  { duration := 0, repetitions := 0, keyFrames := [], loopStart := 0, loopEnd := 0
    confidence := 0 }

/-- JavaScript `a || b` on numbers (no NaN in the rational model): `b` when
`a` is zero, otherwise `a`. -/
def jsOr (a b : ℚ) : ℚ := if a = 0 then b else a

/-- Method `analyzeFrames`: the zero result on an empty frame list, otherwise run
detection, key-frame search, loop selection and confidence, mapping the loop
frame indices back to frame times (with the `|| 0` / `|| duration`
fallbacks of the source). -/
def analyzeFrames (duration : ℚ) (frames : List FrameData) : DrillAnalysis :=
  if frames.length = 0 then zeroAnalysis
  else
    let reps := findRepetitions frames
    let keyFrames := findKeyFrames frames
    let lp := findBestLoop frames reps
    let confidence := calculateConfidence reps
    let loopStartTime := jsOr (frames.getD (min lp.1 (frames.length - 1)) default).time 0
    let loopEndTime :=
      jsOr (frames.getD (min lp.2 (frames.length - 1)) default).time duration
    { duration := duration, repetitions := reps.length, keyFrames := keyFrames
      loopStart := loopStartTime, loopEnd := loopEndTime, confidence := confidence }

/-- Method `analyzeVideo`: rejects with an error when the video cannot be loaded
(`video.onerror`); otherwise sets the canvas to at most 320×240 and runs
extraction and analysis inside the source's try/catch.  The one failure this
pipeline raises in the browser is modelled explicitly: as soon as a frame is
sampled, `getImageData` throws `IndexSizeError` on a canvas of zero width or
height, and the catch handler rejects with that error. -/
def analyzeVideo (canLoad : Bool) (vw vh : ℕ) (capture : ℚ → List ℚ) (d : ℚ) :
    Except String DrillAnalysis :=
  if canLoad then
    let w := min vw 320
    let h := min vh 240
    if 0 < totalFramesOf d ∧ (w = 0 ∨ h = 0) then Except.error "IndexSizeError"
    else Except.ok (analyzeFrames d (extractFrames w h capture d))
  else Except.error "Failed to load video"

/-- Seek times issued by the frame-collection loop of
`VideoLoopCreator.extractAndLoop` (part_003, current variant):
`startTime + i / 30` for `i < Math.ceil((endTime - startTime) * 30)`. -/
def extractAndLoopSeekTimes (startTime endTime : ℚ) : List ℚ :=
  let fps : ℚ := 30
  let totalFrames := (⌈(endTime - startTime) * fps⌉).toNat
  (List.range totalFrames).map (fun (i : ℕ) => startTime + (i : ℚ) / fps)

/-- Seek times issued by `captureFrame` of the client-library
`VideoLoopCreator.extractAndLoop`: the loop is replayed three times, seeking
to `startTime + (frameCount % totalFrames) / 30`. -/
def captureFrameSeekTimes (startTime endTime : ℚ) : List ℚ :=
  let fps : ℚ := 30
  let totalFrames := (⌈(endTime - startTime) * fps⌉).toNat
  (List.range (totalFrames * 3)).map
    (fun (k : ℕ) => startTime + ((k % totalFrames : ℕ) : ℚ) / fps)

/-- Bound validation of `extractAndLoop` (part_003, current variant): throws
on `startTime < 0`, `endTime > video.duration` or non-positive duration,
otherwise performs the seeks. -/
def extractAndLoop (videoDuration startTime endTime : ℚ) : Except String (List ℚ) :=
  if startTime < 0 ∨ videoDuration < endTime ∨ endTime - startTime ≤ 0 then
    Except.error "Invalid loop bounds"
  else Except.ok (extractAndLoopSeekTimes startTime endTime)

/-- Capture function of an unreadable or blank source: every read yields an
empty pixel buffer. -/
def capZero : ℚ → List ℚ := fun _ => []

/-- Capture function of a constant 1×1 black video: every read yields one
opaque RGBA pixel. -/
def capOne : ℚ → List ℚ := fun _ => [0, 0, 0, 255]

/-- Concrete 25-frame input whose motion profile produces exactly the cycle
starts 1 and 15 and one repetition candidate `(1, 15)`. -/
def framesC3 : List FrameData :=
  (([0, 0.1, 0.2] : List ℚ) ++ List.replicate 11 0.5 ++ [0, 0.1, 0.2] ++
    List.replicate 8 0.5).map (fun m => ⟨0, [false], m, []⟩)

/-- Concrete 25-frame input whose motion profile produces exactly the cycle
starts 1 and 4 and one repetition candidate `(1, 4)`. -/
def framesC4 : List FrameData :=
  (([0, 0.1, 0.2, 0, 0.1, 0.2] : List ℚ) ++ List.replicate 19 0.5).map
    (fun m => ⟨0, [false], m, []⟩)

/-- Concrete 5-frame input with a single motion peak at index 2. -/
def framesC10 : List FrameData :=
  (([0, 0.1, 0.9, 0.1, 0] : List ℚ)).map (fun m => ⟨0, [false], m, []⟩)

section Proofs

attribute [local semireducible] Rat.add Rat.mul Rat.inv Rat.ofScientific Rat.sub

/-- Membership in a fold that only appends: everything in the result is in
the initial accumulator or in the chunk produced by some list element. -/
theorem mem_foldl_append {α β : Type _} (g : β → List α) (l : List β) :
    ∀ (init : List α) (p : α),
      p ∈ l.foldl (fun acc i => acc ++ g i) init → p ∈ init ∨ ∃ i ∈ l, p ∈ g i := by
  induction l with
  | nil => exact fun init p hp => Or.inl hp
  | cons b t ih =>
    intro init p hp
    rcases ih (init ++ g b) p hp with h | ⟨i, hi, hgi⟩
    · rcases List.mem_append.1 h with h | h
      · exact Or.inl h
      · exact Or.inr ⟨b, List.mem_cons_self _ _, h⟩
    · exact Or.inr ⟨i, List.mem_cons_of_mem _ hi, hgi⟩

/-- Everything kept by the deduplication fold comes from the accumulator or
from the input list. -/
theorem mem_foldl_dedup {α : Type _} (f : α → α → Bool) (l : List α) :
    ∀ (init : List α) (q : α),
      q ∈ l.foldl (fun unique rep =>
        if unique.any (fun u => f u rep) then unique else unique ++ [rep]) init →
      q ∈ init ∨ q ∈ l := by
  induction l with
  | nil => exact fun init q hq => Or.inl hq
  | cons b t ih =>
    intro init q hq
    simp only [List.foldl_cons] at hq
    by_cases hc : init.any (fun u => f u b) = true
    · rw [if_pos hc] at hq
      rcases ih init q hq with h | h
      · exact Or.inl h
      · exact Or.inr (List.mem_cons_of_mem _ h)
    · rw [if_neg hc] at hq
      rcases ih (init ++ [b]) q hq with h | h
      · rcases List.mem_append.1 h with h | h
        · exact Or.inl h
        · rw [List.mem_singleton] at h
          exact Or.inr (h ▸ List.mem_cons_self _ _)
      · exact Or.inr (List.mem_cons_of_mem _ h)

/-- The deduplication fold keeps the accumulator pairwise non-duplicate. -/
theorem pairwise_foldl_dedup {α : Type _} (f : α → α → Bool) (l : List α) :
    ∀ init : List α, init.Pairwise (fun u v => f u v = false) →
      (l.foldl (fun unique rep =>
        if unique.any (fun u => f u rep) then unique else unique ++ [rep]) init).Pairwise
        (fun u v => f u v = false) := by
  induction l with
  | nil => exact fun init h => h
  | cons b t ih =>
    intro init h
    simp only [List.foldl_cons]
    by_cases hc : init.any (fun u => f u b) = true
    · rw [if_pos hc]; exact ih init h
    · rw [if_neg hc]
      refine ih (init ++ [b]) ?_
      rw [List.pairwise_append]
      refine ⟨h, List.pairwise_singleton _ _, ?_⟩
      intro u hu v hv
      rw [List.mem_singleton] at hv
      subst hv
      rcases Bool.eq_false_or_eq_true (f u v) with h' | h'
      · exact absurd (List.any_eq_true.2 ⟨u, hu, h'⟩) hc
      · exact h'

/-- Deduplication returns a subset of its input. -/
theorem mem_deduplicateRepetitions {reps : List (ℕ × ℕ)} {p : ℕ × ℕ}
    (hp : p ∈ deduplicateRepetitions reps) : p ∈ reps := by
  unfold deduplicateRepetitions at hp
  rcases mem_foldl_dedup _ reps [] p hp with h | h
  · exact absurd h (List.not_mem_nil p)
  · exact h

/-- Cycle starts lie strictly inside the frame range. -/
theorem cycleStartsOf_mem {frames : List FrameData} {i : ℕ}
    (h : i ∈ cycleStartsOf frames) : 1 ≤ i ∧ i + 2 ≤ frames.length := by
  have h' := List.mem_of_mem_filter h
  rw [List.mem_range'_1] at h'
  omega

/-- Cycle starts are listed in strictly increasing order. -/
theorem cycleStartsOf_pairwise (frames : List FrameData) :
    (cycleStartsOf frames).Pairwise (· < ·) :=
  List.Pairwise.filter _ (List.pairwise_lt_range' 1 _)

/-- Valid positions of the cycle-start list are members of it. -/
theorem cycleStarts_getD_mem {frames : List FrameData} {i : ℕ}
    (hi : i < (cycleStartsOf frames).length) :
    (cycleStartsOf frames).getD i 0 ∈ cycleStartsOf frames := by
  rw [List.getD_eq_get?, List.get?_eq_get hi]
  exact List.get_mem _ _ _

/-- Earlier cycle starts are smaller. -/
theorem cycleStarts_getD_lt {frames : List FrameData} {i j : ℕ} (hij : i < j)
    (hj : j < (cycleStartsOf frames).length) :
    (cycleStartsOf frames).getD i 0 < (cycleStartsOf frames).getD j 0 := by
  have hi : i < (cycleStartsOf frames).length := lt_trans hij hj
  rw [List.getD_eq_get?, List.get?_eq_get hi, List.getD_eq_get?, List.get?_eq_get hj]
  exact List.pairwise_iff_get.1 (cycleStartsOf_pairwise frames) ⟨i, hi⟩ ⟨j, hj⟩ hij

/-- Every candidate recorded for one window size is a pair of cycle starts
with the second strictly after the first. -/
theorem repsForWindow_mem {frames : List FrameData} {w : ℕ} {p : ℕ × ℕ}
    (hp : p ∈ repsForWindow frames w) :
    p.1 ∈ cycleStartsOf frames ∧ p.2 ∈ cycleStartsOf frames ∧ p.1 < p.2 := by
  unfold repsForWindow at hp
  rcases mem_foldl_append _ _ _ _ hp with h | ⟨i, hi, hin⟩
  · exact absurd h (List.not_mem_nil p)
  · rcases mem_foldl_append _ _ _ _ hin with h | ⟨j, hj, hpg⟩
    · exact absurd h (List.not_mem_nil p)
    · rw [List.mem_range] at hi
      rw [List.mem_range'_1] at hj
      dsimp only at hpg
      split at hpg
      · rw [List.mem_singleton] at hpg
        subst hpg
        have hjlen : j < (cycleStartsOf frames).length := by omega
        have hij : i < j := by omega
        exact ⟨cycleStarts_getD_mem (by omega), cycleStarts_getD_mem hjlen,
          cycleStarts_getD_lt hij hjlen⟩
      · exact absurd hpg (List.not_mem_nil p)

/-- Every candidate in the detector's final output starts at index at least 1,
ends strictly later, and ends at least two frames before the end. -/
theorem findRepetitions_mem {frames : List FrameData} {p : ℕ × ℕ}
    (hp : p ∈ findRepetitions frames) :
    1 ≤ p.1 ∧ p.1 < p.2 ∧ p.2 + 2 ≤ frames.length := by
  unfold findRepetitions at hp
  have h1 := mem_deduplicateRepetitions hp
  rcases mem_foldl_append _ _ _ _ h1 with h | ⟨w, _, hpw⟩
  · exact absurd h (List.not_mem_nil p)
  · have h2 := repsForWindow_mem hpw
    have b1 := cycleStartsOf_mem h2.1
    have b2 := cycleStartsOf_mem h2.2.1
    exact ⟨b1.1, h2.2.2, b2.2⟩

/-- With at least one candidate, the loop selector returns one of them. -/
theorem findBestLoop_mem {frames : List FrameData} {reps : List (ℕ × ℕ)}
    (h : reps ≠ []) : findBestLoop frames reps ∈ reps := by
  cases reps with
  | nil => exact absurd rfl h
  | cons r0 t =>
    unfold findBestLoop
    have key : ∀ (l : List (ℕ × ℕ)) (init : (ℕ × ℕ) × ℚ),
        init.1 ∈ r0 :: t → (∀ q ∈ l, q ∈ r0 :: t) →
        (l.foldl (fun best p =>
          let dur : ℤ := (p.2 : ℤ) - (p.1 : ℤ)
          let consistencyScore := (r0 :: t).countP (fun q =>
            decide (|((q.2 : ℤ) - (q.1 : ℤ)) - dur| < 5))
          let avgMotion := (((frames.drop p.1).take (p.2 - p.1)).foldl
            (fun s f => s + f.motion) 0) / (dur : ℚ)
          let score := (consistencyScore : ℚ) * avgMotion
          if best.2 < score then (p, score) else best) init).1 ∈ r0 :: t := by
      intro l
      induction l with
      | nil => exact fun init h1 _ => h1
      | cons b bt ih =>
        intro init h1 h2
        simp only [List.foldl_cons]
        refine ih _ ?_ (fun q hq => h2 q (List.mem_cons_of_mem _ hq))
        dsimp only
        split
        · exact h2 b (List.mem_cons_self _ _)
        · exact h1
    exact key (r0 :: t) (r0, 0) (List.mem_cons_self _ _) (fun q hq => hq)

/-- Positions of a mapped range evaluate to the function. -/
theorem getD_map_range {α : Type _} (f : ℕ → α) {n k : ℕ} (hk : k < n) (dflt : α) :
    ((List.range n).map f).getD k dflt = f k := by
  rw [List.getD_eq_get?, List.get?_map, List.get?_range hk, Option.map_some']
  rfl

/-- The extraction fold is a map of `mkFrame` over the frame indices. -/
theorem extractFrames_eq_map (w h : ℕ) (capture : ℚ → List ℚ) (d : ℚ) :
    extractFrames w h capture d =
      (List.range (totalFramesOf d)).map (mkFrame w h capture d) := by
  unfold extractFrames
  generalize totalFramesOf d = n
  induction n with
  | zero => rfl
  | succ m ih =>
    rw [List.range_succ, List.foldl_append, List.map_append, ih]
    simp only [List.foldl_cons, List.foldl_nil, List.map_cons, List.map_nil]
    congr 1
    cases m with
    | zero => rfl
    | succ k =>
      simp only [mkFrame, Nat.add_sub_cancel, if_pos (Nat.succ_pos k),
        getD_map_range (mkFrame w h capture d) (Nat.lt_succ_self k)]

/-- The number of extracted frames is `totalFramesOf`. -/
theorem extractFrames_length (w h : ℕ) (capture : ℚ → List ℚ) (d : ℚ) :
    (extractFrames w h capture d).length = totalFramesOf d := by
  rw [extractFrames_eq_map]
  simp

/-- The extracted frame at position `k` has capture time `k * interval`. -/
theorem extractFrames_time (w h : ℕ) (capture : ℚ → List ℚ) (d : ℚ) {k : ℕ}
    (hk : k < totalFramesOf d) :
    ((extractFrames w h capture d).getD k default).time = (k : ℚ) * intervalOf d := by
  rw [extractFrames_eq_map, getD_map_range _ hk]
  rfl

/-- JavaScript `t || 0` is the identity on numbers. -/
theorem jsOr_zero (a : ℚ) : jsOr a 0 = a := by
  unfold jsOr
  split
  · exact (by assumption : a = 0).symm
  · rfl

/-- JavaScript `t || b` is the identity on nonzero numbers. -/
theorem jsOr_of_ne {a : ℚ} (h : a ≠ 0) (b : ℚ) : jsOr a b = a := if_neg h

/-- The JS `Math.floor(n * 0.2)` index is natural division by 5. -/
theorem toNat_floor_fifth (n : ℕ) : Int.toNat ⌊(n : ℚ) * 0.2⌋ = n / 5 := by
  have h : (n : ℚ) * 0.2 = ((n : ℕ) : ℚ) / ((5 : ℕ) : ℚ) := by push_cast; ring_nf
  rw [h, Int.floor_toNat, Nat.floor_div_nat, Nat.floor_natCast]

/-- The JS `Math.floor(n * 0.8)` index is `4 * n / 5`. -/
theorem toNat_floor_four_fifth (n : ℕ) : Int.toNat ⌊(n : ℚ) * 0.8⌋ = 4 * n / 5 := by
  have h : (n : ℚ) * 0.8 = ((4 * n : ℕ) : ℚ) / ((5 : ℕ) : ℚ) := by push_cast; ring_nf
  rw [h, Int.floor_toNat, Nat.floor_div_nat, Nat.floor_natCast]

/-- Field values of `analyzeFrames` on a non-empty frame list. -/
theorem analyzeFrames_fields (duration : ℚ) (frames : List FrameData)
    (hne : ¬ frames.length = 0) :
    (analyzeFrames duration frames).duration = duration ∧
    (analyzeFrames duration frames).loopStart =
      jsOr (frames.getD (min (findBestLoop frames (findRepetitions frames)).1
        (frames.length - 1)) default).time 0 ∧
    (analyzeFrames duration frames).loopEnd =
      jsOr (frames.getD (min (findBestLoop frames (findRepetitions frames)).2
        (frames.length - 1)) default).time duration := by
  unfold analyzeFrames
  rw [if_neg hne]
  exact ⟨rfl, rfl, rfl⟩

/-- Whole record computed by `analyzeFrames` on a non-empty frame list. -/
theorem analyzeFrames_eq (duration : ℚ) (frames : List FrameData)
    (hne : ¬ frames.length = 0) :
    analyzeFrames duration frames =
      { duration := duration
        repetitions := (findRepetitions frames).length
        keyFrames := findKeyFrames frames
        loopStart := jsOr (frames.getD (min (findBestLoop frames
          (findRepetitions frames)).1 (frames.length - 1)) default).time 0
        loopEnd := jsOr (frames.getD (min (findBestLoop frames
          (findRepetitions frames)).2 (frames.length - 1)) default).time duration
        confidence := calculateConfidence (findRepetitions frames) } := by
  unfold analyzeFrames
  rw [if_neg hne]

/-- Claim C3, counterexample: on the concrete 25-frame input `framesC3` the
detector finds the single candidate `(1, 15)` and the current loop selector
returns it unclamped, although its implied length `15 - 1 = 14` exceeds one
third of the frame count (`25 / 3`). -/
theorem C3_counterexample :
    findRepetitions framesC3 = [(1, 15)] ∧
    findBestLoop framesC3 (findRepetitions framesC3) = (1, 15) ∧
    ¬ (((15 : ℚ) - 1) ≤ (framesC3.length : ℚ) / 3) := by decide

/-- Claim C3, amended: only the older loop-selector variant clamps the
implied loop length; there, with at least one candidate, the selected
segment's length is at most `Math.floor(frameCount / 3)`.  The current
selector returns the winning candidate's indices without any clamp. -/
theorem C3_amended (frames : List FrameData) (reps : List (ℕ × ℕ)) (h : reps ≠ []) :
    (findBestLoopOld frames reps).2 - (findBestLoopOld frames reps).1 ≤
      frames.length / 3 := by
  cases reps with
  | nil => exact absurd rfl h
  | cons r0 t =>
    obtain ⟨s, e⟩ := r0
    unfold findBestLoopOld
    dsimp only
    omega

/-- Witness for the amended claim C3 at a concrete input. -/
theorem C3_amended_witness :
    (findBestLoopOld (List.replicate 6 default) [(0, 5)]).2 -
      (findBestLoopOld (List.replicate 6 default) [(0, 5)]).1 ≤
      (List.replicate 6 (default : FrameData)).length / 3 :=
  C3_amended (List.replicate 6 default) [(0, 5)] (by decide)

/-- Claim C4, counterexample: on `framesC4` the only window size tried is 5
(`25/15 = 1` and `25/10 = 2` are filtered out), and the recorded candidate
`(1, 4)` violates `otherStartIndex > startIndex + windowSize` since
`4 < 1 + 5`. -/
theorem C4_counterexample :
    findRepetitions framesC4 = [(1, 4)] ∧
    framesC4.length / 15 = 1 ∧ framesC4.length / 10 = 2 ∧ framesC4.length / 5 = 5 ∧
    ¬ (1 + 5 < 4) := by decide

/-- Claim C4, amended: every recorded repetition candidate satisfies only
`otherStartIndex > startIndex` (cycle starts are scanned in increasing
order); the window size plays no part in the gap between the two starts. -/
theorem C4_amended (frames : List FrameData) (p : ℕ × ℕ)
    (hp : p ∈ findRepetitions frames) : p.1 < p.2 :=
  (findRepetitions_mem hp).2.1

/-- Witness for the amended claim C4 at a concrete input. -/
theorem C4_amended_witness : ((1, 4) : ℕ × ℕ).1 < ((1, 4) : ℕ × ℕ).2 :=
  C4_amended framesC4 (1, 4) (by decide)

/-- Claim C5: the confidence estimator returns exactly 0.3, 0.6, 0.75, 0.9
for zero, one, two, and three-or-more candidates, and is a non-decreasing
function of the candidate count. -/
theorem C5_confidence_tiers :
    (∀ reps : List (ℕ × ℕ), reps.length = 0 → calculateConfidence reps = 0.3) ∧
    (∀ reps : List (ℕ × ℕ), reps.length = 1 → calculateConfidence reps = 0.6) ∧
    (∀ reps : List (ℕ × ℕ), reps.length = 2 → calculateConfidence reps = 0.75) ∧
    (∀ reps : List (ℕ × ℕ), 3 ≤ reps.length → calculateConfidence reps = 0.9) ∧
    (∀ reps1 reps2 : List (ℕ × ℕ), reps1.length ≤ reps2.length →
      calculateConfidence reps1 ≤ calculateConfidence reps2) := by
  refine ⟨?_, ?_, ?_, ?_, ?_⟩
  · intro reps h; unfold calculateConfidence; simp [h]
  · intro reps h; unfold calculateConfidence; simp [h]
  · intro reps h; unfold calculateConfidence; simp [h]
  · intro reps h; unfold calculateConfidence; split_ifs <;> first | rfl | omega
  · intro reps1 reps2 h
    unfold calculateConfidence
    split_ifs <;> first | rfl | omega

/-- Witness for claim C5 at concrete candidate lists of each size. -/
theorem C5_confidence_tiers_witness :
    calculateConfidence [] = 0.3 ∧
    calculateConfidence [(1, 4)] = 0.6 ∧
    calculateConfidence [(1, 4), (5, 9)] = 0.75 ∧
    calculateConfidence [(1, 4), (5, 9), (10, 14)] = 0.9 ∧
    calculateConfidence [] ≤ calculateConfidence [(1, 4)] :=
  ⟨C5_confidence_tiers.1 [] rfl, C5_confidence_tiers.2.1 [(1, 4)] rfl,
    C5_confidence_tiers.2.2.1 [(1, 4), (5, 9)] rfl,
    C5_confidence_tiers.2.2.2.1 [(1, 4), (5, 9), (10, 14)] (by decide),
    C5_confidence_tiers.2.2.2.2 [] [(1, 4)] (by decide)⟩

/-- Claim C7: in the detector's final deduplicated output, no two distinct
candidates have both their start indices and their other-start indices
within (strictly less than) the 5-frame tolerance of each other. -/
theorem C7_dedup_no_close_pairs (frames : List FrameData) :
    (findRepetitions frames).Pairwise (fun u v =>
      ¬ (|(u.1 : ℤ) - (v.1 : ℤ)| < 5 ∧ |(u.2 : ℤ) - (v.2 : ℤ)| < 5)) := by
  unfold findRepetitions deduplicateRepetitions
  have h := pairwise_foldl_dedup
    (fun (u rep : ℕ × ℕ) =>
      decide (|(u.1 : ℤ) - (rep.1 : ℤ)| < 5 ∧ |(u.2 : ℤ) - (rep.2 : ℤ)| < 5))
    (([frames.length / 15, frames.length / 10, frames.length / 5].filter
      (fun w => decide (5 ≤ w))).foldl (fun acc w => acc ++ repsForWindow frames w) [])
    [] List.Pairwise.nil
  exact h.imp (fun hf => of_decide_eq_false hf)

/-- Below 25 frames every window size falls under the minimum of 5 and is
filtered out, so the detector records nothing. -/
theorem findRepetitions_eq_nil_of_length_lt (frames : List FrameData)
    (h : frames.length < 25) : findRepetitions frames = [] := by
  unfold findRepetitions
  have h15 : ¬ (5 ≤ frames.length / 15) := by omega
  have h10 : ¬ (5 ≤ frames.length / 10) := by omega
  have h5 : ¬ (5 ≤ frames.length / 5) := by omega
  simp [h15, h10, h5, deduplicateRepetitions]

/-- Claim C8: with fewer than 10 frames the detector returns no candidates
(in fact every window size is filtered out below 25 frames). -/
theorem C8_few_frames_no_candidates (frames : List FrameData)
    (h : frames.length < 10) : findRepetitions frames = [] :=
  findRepetitions_eq_nil_of_length_lt frames (by omega)

/-- Witness for claim C8 at a concrete 3-frame input. -/
theorem C8_few_frames_no_candidates_witness :
    findRepetitions (List.replicate 3 default) = [] :=
  C8_few_frames_no_candidates (List.replicate 3 default) (by decide)

/-- Claim C2, counterexample: a genuine single-frame input — a 1×1 video of
duration 0.05 s, on which the real pipeline completes normally — yields a
one-frame (not empty) sampled sequence and a result that is not the
zero-value one (it has confidence 0.3 and loopEnd equal to the duration). -/
theorem C2_counterexample :
    (extractFrames (min 1 320) (min 1 240) capOne (1 / 20)).length = 1 ∧
    analyzeFrames (1 / 20) (extractFrames (min 1 320) (min 1 240) capOne (1 / 20)) ≠
      zeroAnalysis := by decide

/-- Claim C2, amended: the zero-value result arises exactly from an empty
sampled frame sequence — analysis of any non-empty sequence has nonzero
confidence, so it never equals the zero result; an unopenable source rejects
with 'Failed to load video' instead of returning a result; a zero-sized
canvas with at least one frame to sample rejects through the try/catch
(`getImageData` raises `IndexSizeError`); and every input whose extraction
yields exactly one frame returns `{ duration, repetitions: 0, keyFrames: [],
loopStart: 0, loopEnd: duration, confidence: 0.3 }` — not the zero result
and with no exception. -/
theorem C2_amended :
    (∀ d : ℚ, analyzeFrames d [] = zeroAnalysis) ∧
    (∀ (d : ℚ) (frames : List FrameData), frames ≠ [] →
      analyzeFrames d frames ≠ zeroAnalysis) ∧
    (∀ (vw vh : ℕ) (capture : ℚ → List ℚ) (d : ℚ),
      analyzeVideo false vw vh capture d = Except.error "Failed to load video") ∧
    (∀ (vw vh : ℕ) (capture : ℚ → List ℚ) (d : ℚ),
      0 < totalFramesOf d → min vw 320 = 0 ∨ min vh 240 = 0 →
      analyzeVideo true vw vh capture d = Except.error "IndexSizeError") ∧
    (∀ (w h : ℕ) (capture : ℚ → List ℚ) (d : ℚ),
      (extractFrames w h capture d).length = 1 →
      analyzeFrames d (extractFrames w h capture d) =
        { duration := d, repetitions := 0, keyFrames := [], loopStart := 0,
          loopEnd := d, confidence := 0.3 }) := by
  refine ⟨fun d => rfl, ?_, fun vw vh capture d => rfl, ?_, ?_⟩
  · intro d frames hne heq
    have hn0 : ¬ frames.length = 0 := fun hc => hne (List.length_eq_zero.1 hc)
    have hconf : (analyzeFrames d frames).confidence =
        calculateConfidence (findRepetitions frames) := by
      rw [analyzeFrames_eq d frames hn0]
    have hne0 : calculateConfidence (findRepetitions frames) ≠ 0 := by
      unfold calculateConfidence
      split_ifs <;> decide
    apply hne0
    rw [← hconf, heq]
    rfl
  · intro vw vh capture d hT hwh
    unfold analyzeVideo
    rw [if_pos rfl]
    exact if_pos ⟨hT, hwh⟩
  · intro w h capture d hlen
    have hn0 : ¬ (extractFrames w h capture d).length = 0 := by omega
    have hT1 : totalFramesOf d = 1 :=
      (extractFrames_length w h capture d).symm.trans hlen
    have hrep : findRepetitions (extractFrames w h capture d) = [] :=
      findRepetitions_eq_nil_of_length_lt _ (by omega)
    have hkf : findKeyFrames (extractFrames w h capture d) = [] := by
      unfold findKeyFrames
      rw [hlen]
      rfl
    have hbl1 : (findBestLoop (extractFrames w h capture d) []).1 = 0 := by
      have h0 : (findBestLoop (extractFrames w h capture d) []).1 =
          Int.toNat ⌊((extractFrames w h capture d).length : ℚ) * 0.2⌋ := rfl
      rw [h0, toNat_floor_fifth, hlen]
    have hbl2 : (findBestLoop (extractFrames w h capture d) []).2 = 0 := by
      have h0 : (findBestLoop (extractFrames w h capture d) []).2 =
          Int.toNat ⌊((extractFrames w h capture d).length : ℚ) * 0.8⌋ := rfl
      rw [h0, toNat_floor_four_fifth, hlen]
    have ht0 : ((extractFrames w h capture d).getD 0 default).time = 0 := by
      rw [extractFrames_time w h capture d (by omega)]
      simp
    rw [analyzeFrames_eq d (extractFrames w h capture d) hn0, hrep, hkf, hbl1, hbl2,
      hlen, Nat.sub_self, Nat.min_self, ht0, jsOr_zero]
    rw [show jsOr 0 d = d from if_pos rfl]
    rfl

/-- Witness for the amended claim C2: the 1×1, 0.05 s single-frame input is
not the zero result, the 0×0 canvas rejects with `IndexSizeError`, and the
single-frame clause evaluates to the asserted record. -/
theorem C2_amended_witness :
    analyzeFrames (1 / 20) (extractFrames 1 1 capOne (1 / 20)) ≠ zeroAnalysis ∧
    analyzeVideo true 0 0 capOne (1 / 20) = Except.error "IndexSizeError" ∧
    analyzeFrames (1 / 20) (extractFrames 1 1 capOne (1 / 20)) =
      { duration := 1 / 20, repetitions := 0, keyFrames := [], loopStart := 0,
        loopEnd := 1 / 20, confidence := 0.3 } :=
  ⟨C2_amended.2.1 (1 / 20) (extractFrames 1 1 capOne (1 / 20)) (by decide),
    C2_amended.2.2.2.1 0 0 capOne (1 / 20) (by decide) (by decide),
    C2_amended.2.2.2.2 1 1 capOne (1 / 20) (by decide)⟩

/-- Claim C6: the extracted frame sequence never exceeds the configured cap
of 300 frames, and its first frame (when one exists) has motion score
exactly 0. -/
theorem C6_extract_bounds (w h : ℕ) (capture : ℚ → List ℚ) (d : ℚ) :
    (extractFrames w h capture d).length ≤ 300 ∧
    ∀ hne : extractFrames w h capture d ≠ [],
      ((extractFrames w h capture d).head hne).motion = 0 := by
  constructor
  · rw [extractFrames_length]
    unfold totalFramesOf
    exact Int.toNat_le.2 (min_le_right _ _)
  · intro hne
    have hn0 : totalFramesOf d ≠ 0 := by
      intro h0
      rw [extractFrames_eq_map, h0] at hne
      exact hne rfl
    obtain ⟨m, hm⟩ := Nat.exists_eq_succ_of_ne_zero hn0
    have hh : (extractFrames w h capture d).head? = some (mkFrame w h capture d 0) := by
      rw [extractFrames_eq_map, List.head?_map, hm, List.range_succ_eq_map]
      rfl
    rw [List.head?_eq_head hne] at hh
    rw [Option.some_inj.1 hh]
    rfl

/-- Witness for claim C6 at a concrete one-frame extraction. -/
theorem C6_extract_bounds_witness :
    (extractFrames 0 0 capZero (1 / 10)).length ≤ 300 ∧
    ((extractFrames 0 0 capZero (1 / 10)).head (by decide)).motion = 0 :=
  ⟨(C6_extract_bounds 0 0 capZero (1 / 10)).1,
    (C6_extract_bounds 0 0 capZero (1 / 10)).2 (by decide)⟩

/-- Claim C9: under valid loop bounds `0 ≤ startTime < endTime ≤ duration`
(including `endTime = duration`), every seek time issued by the render loop —
both the frame-collection loop of the current `extractAndLoop` and the
`captureFrame` loop of the client-library variant — lies within
`[0, videoDuration]`. -/
theorem C9_render_seek_in_bounds (videoDuration startTime endTime : ℚ)
    (h0 : 0 ≤ startTime) (h1 : startTime < endTime) (h2 : endTime ≤ videoDuration) :
    (∀ t ∈ extractAndLoopSeekTimes startTime endTime, 0 ≤ t ∧ t ≤ videoDuration) ∧
    (∀ t ∈ captureFrameSeekTimes startTime endTime, 0 ≤ t ∧ t ≤ videoDuration) := by
  have fpsPos : (0 : ℚ) < 30 := by norm_num
  have key : ∀ i : ℕ, (i : ℤ) < ⌈(endTime - startTime) * 30⌉ →
      0 ≤ startTime + (i : ℚ) / 30 ∧ startTime + (i : ℚ) / 30 ≤ videoDuration := by
    intro i hi
    constructor
    · have : (0 : ℚ) ≤ (i : ℚ) / 30 := by positivity
      linarith
    · have hceil := Int.ceil_lt_add_one ((endTime - startTime) * 30)
      have hi' : (i : ℚ) + 1 ≤ (⌈(endTime - startTime) * 30⌉ : ℚ) := by
        exact_mod_cast Int.lt_iff_add_one_le.1 hi
      have hlt : (i : ℚ) < (endTime - startTime) * 30 := by linarith
      have hdiv : (i : ℚ) / 30 < endTime - startTime := by
        rw [div_lt_iff fpsPos]
        linarith
      linarith
  constructor
  · intro t ht
    obtain ⟨i, hi, rfl⟩ := List.mem_map.1 ht
    rw [List.mem_range] at hi
    exact key i (Int.lt_toNat.1 hi)
  · intro t ht
    obtain ⟨k, _, rfl⟩ := List.mem_map.1 ht
    have hT : 0 < (⌈(endTime - startTime) * 30⌉).toNat := by
      have hpos : (0 : ℚ) < (endTime - startTime) * 30 := by nlinarith
      have := Int.ceil_pos.2 hpos
      omega
    exact key _ (Int.lt_toNat.1 (Nat.mod_lt _ hT))

/-- Witness for claim C9: the loop spanning the last two seconds of a
10-second video issues the in-bounds seek time 8. -/
theorem C9_render_seek_in_bounds_witness : 0 ≤ (8 : ℚ) ∧ (8 : ℚ) ≤ 10 :=
  (C9_render_seek_in_bounds 10 8 10 (by norm_num) (by norm_num) (by norm_num)).1
    8 (by decide)

/-- Claim C10: on a non-empty frame sequence the key-frame list is strictly
increasing, every index lies in `[1, n-2]`, and each one is a strict local
maximum of the motion sequence exceeding the 75th-percentile threshold. -/
theorem C10_keyframes_strict_peaks (frames : List FrameData) (_hne : frames ≠ []) :
    (findKeyFrames frames).Pairwise (· < ·) ∧
    ∀ i ∈ findKeyFrames frames,
      1 ≤ i ∧ i + 2 ≤ frames.length ∧
      (frames.map FrameData.motion).getD (i - 1) 0 <
        (frames.map FrameData.motion).getD i 0 ∧
      (frames.map FrameData.motion).getD (i + 1) 0 <
        (frames.map FrameData.motion).getD i 0 ∧
      keyFrameThreshold frames < (frames.map FrameData.motion).getD i 0 := by
  have hkf : findKeyFrames frames =
      (List.range' 1 (frames.length - 2)).filter (fun i =>
        decide (keyFrameThreshold frames < (frames.map FrameData.motion).getD i 0 ∧
          (frames.map FrameData.motion).getD (i - 1) 0 <
            (frames.map FrameData.motion).getD i 0 ∧
          (frames.map FrameData.motion).getD (i + 1) 0 <
            (frames.map FrameData.motion).getD i 0)) := rfl
  constructor
  · rw [hkf]
    exact List.Pairwise.filter _ (List.pairwise_lt_range' 1 _)
  · intro i hi
    rw [hkf] at hi
    have h1 := List.mem_of_mem_filter hi
    rw [List.mem_range'_1] at h1
    have h2 := List.of_mem_filter hi
    rw [decide_eq_true_eq] at h2
    exact ⟨h1.1, by omega, h2.2.1, h2.2.2, h2.1⟩

/-- Witness for claim C10 at a concrete 5-frame input with one motion peak. -/
theorem C10_keyframes_strict_peaks_witness :
    (findKeyFrames framesC10).Pairwise (· < ·) ∧
    ∀ i ∈ findKeyFrames framesC10,
      1 ≤ i ∧ i + 2 ≤ framesC10.length ∧
      (framesC10.map FrameData.motion).getD (i - 1) 0 <
        (framesC10.map FrameData.motion).getD i 0 ∧
      (framesC10.map FrameData.motion).getD (i + 1) 0 <
        (framesC10.map FrameData.motion).getD i 0 ∧
      keyFrameThreshold framesC10 < (framesC10.map FrameData.motion).getD i 0 :=
  C10_keyframes_strict_peaks framesC10 (by decide)

/-- Claim C1: every analysis result satisfies
`0 ≤ loopStart < loopEnd ≤ duration`, and on an empty sampled frame sequence
the specially guarded zero result has `loopStart = loopEnd = 0`. -/
theorem C1_analysis_loop_bounds (w h : ℕ) (capture : ℚ → List ℚ) (d : ℚ) :
    (extractFrames w h capture d = [] →
      (analyzeFrames d (extractFrames w h capture d)).loopStart = 0 ∧
      (analyzeFrames d (extractFrames w h capture d)).loopEnd = 0) ∧
    (extractFrames w h capture d ≠ [] →
      0 ≤ (analyzeFrames d (extractFrames w h capture d)).loopStart ∧
      (analyzeFrames d (extractFrames w h capture d)).loopStart <
        (analyzeFrames d (extractFrames w h capture d)).loopEnd ∧
      (analyzeFrames d (extractFrames w h capture d)).loopEnd ≤
        (analyzeFrames d (extractFrames w h capture d)).duration) := by
  constructor
  · intro he
    rw [he]
    exact ⟨rfl, rfl⟩
  · intro hne
    set frames := extractFrames w h capture d with hfr
    have hn0 : ¬ frames.length = 0 := fun hc => hne (List.length_eq_zero.1 hc)
    have hTn : totalFramesOf d = frames.length := by rw [hfr, extractFrames_length]
    have hd : 0 < d := by
      have h1 : (1 : ℤ) ≤ min ⌈d * 10⌉ 300 := by
        have h2 : totalFramesOf d ≠ 0 := by rw [hTn]; exact hn0
        unfold totalFramesOf at h2
        omega
      have h4 : (0 : ℤ) < ⌈d * 10⌉ := by
        have h5 := min_le_left ⌈d * 10⌉ (300 : ℤ)
        omega
      have h3 : (0 : ℚ) < d * 10 := Int.ceil_pos.1 h4
      linarith
    have hnQ : (0 : ℚ) < (frames.length : ℚ) := by
      exact_mod_cast Nat.pos_of_ne_zero hn0
    have hipos : 0 < intervalOf d := by
      unfold intervalOf
      rw [hTn]
      exact div_pos hd hnQ
    have hI : intervalOf d = d / (frames.length : ℚ) := by
      unfold intervalOf
      rw [hTn]
    have htime : ∀ k : ℕ, k < frames.length →
        (frames.getD k default).time = (k : ℚ) * intervalOf d := by
      intro k hk
      rw [hfr]
      exact extractFrames_time w h capture d (by rw [hTn]; exact hk)
    have hcap : ∀ k : ℕ, k < frames.length → (k : ℚ) * intervalOf d < d := by
      intro k hk
      rw [hI]
      have hkQ : (k : ℚ) < (frames.length : ℚ) := by exact_mod_cast hk
      calc (k : ℚ) * (d / (frames.length : ℚ))
          < (frames.length : ℚ) * (d / (frames.length : ℚ)) :=
            mul_lt_mul_of_pos_right hkQ (div_pos hd hnQ)
        _ = d := mul_div_cancel₀ d (ne_of_gt hnQ)
    obtain ⟨hdur, hls, hle⟩ := analyzeFrames_fields d frames hn0
    rw [hdur, hls, hle]
    cases hrep : findRepetitions frames with
    | nil =>
      have hbl1 : (findBestLoop frames []).1 = frames.length / 5 := by
        have h0 : (findBestLoop frames []).1 = Int.toNat ⌊(frames.length : ℚ) * 0.2⌋ := rfl
        rw [h0, toNat_floor_fifth]
      have hbl2 : (findBestLoop frames []).2 = 4 * frames.length / 5 := by
        have h0 : (findBestLoop frames []).2 = Int.toNat ⌊(frames.length : ℚ) * 0.8⌋ := rfl
        rw [h0, toNat_floor_four_fifth]
      rw [hbl1, hbl2]
      rcases Nat.lt_or_ge frames.length 2 with h2 | h2
      · have ha : frames.length / 5 = 0 := by omega
        have hb : 4 * frames.length / 5 = 0 := by omega
        rw [ha, hb]
        have hmin : min 0 (frames.length - 1) = 0 := by omega
        rw [hmin]
        have ht0 : (frames.getD 0 default).time = 0 := by
          rw [htime 0 (by omega)]
          simp
        rw [ht0]
        have hjs2 : jsOr 0 d = d := by unfold jsOr; rw [if_pos rfl]
        rw [jsOr_zero, hjs2]
        exact ⟨le_refl 0, hd, le_refl d⟩
      · have hmin1 : min (frames.length / 5) (frames.length - 1) = frames.length / 5 := by
          omega
        have hmin2 : min (4 * frames.length / 5) (frames.length - 1) =
            4 * frames.length / 5 := by omega
        rw [hmin1, hmin2, htime (frames.length / 5) (by omega),
          htime (4 * frames.length / 5) (by omega)]
        have hb1 : (0 : ℚ) < ((4 * frames.length / 5 : ℕ) : ℚ) := by
          exact_mod_cast Nat.pos_of_ne_zero (by omega)
        have ht2pos : 0 < ((4 * frames.length / 5 : ℕ) : ℚ) * intervalOf d :=
          mul_pos hb1 hipos
        rw [jsOr_zero, jsOr_of_ne (ne_of_gt ht2pos)]
        refine ⟨mul_nonneg (Nat.cast_nonneg _) (le_of_lt hipos), ?_, ?_⟩
        · exact mul_lt_mul_of_pos_right
            (by exact_mod_cast (by omega : frames.length / 5 < 4 * frames.length / 5)) hipos
        · exact le_of_lt (hcap _ (by omega))
    | cons r0 t =>
      have hmem : findBestLoop frames (r0 :: t) ∈ findRepetitions frames := by
        rw [hrep]
        exact findBestLoop_mem (List.cons_ne_nil r0 t)
      obtain ⟨hs1, hs12, hs2n⟩ := findRepetitions_mem hmem
      have hmin1 : min (findBestLoop frames (r0 :: t)).1 (frames.length - 1) =
          (findBestLoop frames (r0 :: t)).1 := by omega
      have hmin2 : min (findBestLoop frames (r0 :: t)).2 (frames.length - 1) =
          (findBestLoop frames (r0 :: t)).2 := by omega
      rw [hmin1, hmin2, htime (findBestLoop frames (r0 :: t)).1 (by omega),
        htime (findBestLoop frames (r0 :: t)).2 (by omega)]
      have ht2pos : 0 < (((findBestLoop frames (r0 :: t)).2 : ℕ) : ℚ) * intervalOf d := by
        have hpos : (0 : ℚ) < (((findBestLoop frames (r0 :: t)).2 : ℕ) : ℚ) := by
          exact_mod_cast Nat.pos_of_ne_zero (by omega)
        exact mul_pos hpos hipos
      rw [jsOr_zero, jsOr_of_ne (ne_of_gt ht2pos)]
      refine ⟨mul_nonneg (Nat.cast_nonneg _) (le_of_lt hipos), ?_, ?_⟩
      · exact mul_lt_mul_of_pos_right (by exact_mod_cast hs12) hipos
      · exact le_of_lt (hcap _ (by omega))

/-- Witness for claim C1: a one-frame extraction (duration 0.1 s) yields
`loopStart = 0 < loopEnd = 0.1 ≤ duration`. -/
theorem C1_analysis_loop_bounds_witness :
    0 ≤ (analyzeFrames (1 / 10) (extractFrames 0 0 capZero (1 / 10))).loopStart ∧
    (analyzeFrames (1 / 10) (extractFrames 0 0 capZero (1 / 10))).loopStart <
      (analyzeFrames (1 / 10) (extractFrames 0 0 capZero (1 / 10))).loopEnd ∧
    (analyzeFrames (1 / 10) (extractFrames 0 0 capZero (1 / 10))).loopEnd ≤
      (analyzeFrames (1 / 10) (extractFrames 0 0 capZero (1 / 10))).duration :=
  (C1_analysis_loop_bounds 0 0 capZero (1 / 10)).2 (by decide)

end Proofs

end Train
